import Mathlib

/-!
Verification of the vehicle tracking, counting, lane-filtering and speed
estimation core of advanced_detector.py (class AdvancedVehicleDetector).

Modelling conventions:
* Python dicts (self.trackers, self.tracker_history, self.vehicle_count) are
  insertion-ordered association lists; dict assignment replaces the value in
  place when the key is present and appends otherwise, and iteration follows
  list order, exactly as Python dict iteration does.
* Euclidean distances are compared through their squares: for nonnegative
  reals, sqrt d1 < sqrt d2 iff d1 < d2, so the float comparisons
  distance < 100 and distance < min_distance in update_tracking are embedded
  as the exact integer comparisons sqDist < 10000 and sqDist < minSq.  The
  initial min_distance = float inf together with the paired matched_id = None
  is embedded as an Option (Nat x Int) accumulator (none = no match yet).
* The tracker_history values are collections.deque with maxlen 30: appending
  to a full deque evicts the oldest element.
* estimate_speed returns a real number (Option none embeds Python None); the
  sqrt there is Real.sqrt, the one place a genuine square root is returned
  rather than compared.
-/

namespace AdvDet

/-- A detection as consumed by update_tracking / count_vehicles: its centroid
(the center field computed by detect_vehicles) and its class_name. -/
structure Detection where
  center : Int × Int
  class_name : String
deriving DecidableEq, Repr

/-- A line segment (x1, y1, x2, y2) as returned by the Hough transform in
detect_lanes. -/
structure Segment where
  x1 : Int
  y1 : Int
  x2 : Int
  y2 : Int
deriving DecidableEq, Repr

/-- Squared Euclidean distance between two integer points; the square of the
math.sqrt((cx - tx)**2 + (cy - ty)**2) distance of update_tracking and
estimate_speed. -/
def sqDist (a b : Int × Int) : Int :=
  (a.1 - b.1) ^ 2 + (a.2 - b.2) ^ 2

/-- Python dict assignment d[k] = v on an insertion-ordered association
list: replace in place if the key is present, append otherwise. -/
def assocUpdate {κ α : Type} [DecidableEq κ] (k : κ) (v : α) :
    List (κ × α) → List (κ × α)
  | [] => [(k, v)]
  | p :: rest => if p.1 = k then (k, v) :: rest else p :: assocUpdate k v rest

/-- Python dict lookup d.get(k) on an association list. -/
def assocLookup {κ α : Type} [DecidableEq κ] (k : κ) :
    List (κ × α) → Option α
  | [] => none
  | p :: rest => if p.1 = k then some p.2 else assocLookup k rest

/-- The keys of an association list (dict iteration order). -/
def keys {κ α : Type} (l : List (κ × α)) : List κ :=
  l.map Prod.fst

/-- Appending a centroid to a deque with maxlen 30: a full deque evicts its
oldest (leftmost) element. -/
def histAppend (c : Int × Int) (h : List (Int × Int)) : List (Int × Int) :=
  if h.length < 30 then h ++ [c] else h.tail ++ [c]

/-- self.tracker_history[i] on the defaultdict: the stored deque, or the
empty deque for an id never written. -/
def historyOf (hists : List (Nat × List (Int × Int))) (i : Nat) :
    List (Int × Int) :=
  (assocLookup i hists).getD []

/-- self.tracker_history[i].append c, creating the entry on demand as the
defaultdict does. -/
def histUpdate (i : Nat) (c : Int × Int)
    (hists : List (Nat × List (Int × Int))) :
    List (Nat × List (Int × Int)) :=
  assocUpdate i (histAppend c (historyOf hists i)) hists

/-- One iteration of the matching loop of update_tracking over a
(tracker_id, tracker_center) pair.  The accumulator holds matched_id and
min_distance together (none embeds matched_id = None, min_distance = inf);
distances are squared, the gate 100 becoming 10000. -/
def matchStep (center : Int × Int) (acc : Option (Nat × Int))
    (p : Nat × (Int × Int)) : Option (Nat × Int) :=
  let d := sqDist center p.2
  match acc with
  | none => if d < 10000 then some (p.1, d) else none
  | some m => if d < m.2 ∧ d < 10000 then some (p.1, d) else some m

/-- The full matching loop of update_tracking: fold over self.trackers in
dict order, returning the matched id and its squared distance, or none. -/
def findMatch (center : Int × Int) (trackers : List (Nat × (Int × Int))) :
    Option (Nat × Int) :=
  trackers.foldl (matchStep center) none

/-- The mutable loop state of update_tracking: current_trackers,
next_tracker_id, tracker_history, and the detections annotated so far. -/
structure LoopState where
  current : List (Nat × (Int × Int))
  nextId : Nat
  hists : List (Nat × List (Int × Int))
  out : List (Detection × Nat)
deriving DecidableEq, Repr

/-- The body of the per-detection loop of update_tracking: match against the
prior tracker map (fixed for the whole frame), then either reuse the matched
id or allocate next_tracker_id, recording the centroid in both
current_trackers and the history. -/
def trackStep (trackers : List (Nat × (Int × Int))) (ls : LoopState)
    (d : Detection) : LoopState :=
  match findMatch d.center trackers with
  | some m =>
      ⟨assocUpdate m.1 d.center ls.current, ls.nextId,
       histUpdate m.1 d.center ls.hists, ls.out ++ [(d, m.1)]⟩
  | none =>
      ⟨assocUpdate ls.nextId d.center ls.current, ls.nextId + 1,
       histUpdate ls.nextId d.center ls.hists, ls.out ++ [(d, ls.nextId)]⟩

/-- The full detector state: self.trackers, self.next_tracker_id,
self.tracker_history, self.vehicle_count, self.counting_line_y. -/
structure DetectorState where
  trackers : List (Nat × (Int × Int))
  next_tracker_id : Nat
  tracker_history : List (Nat × List (Int × Int))
  vehicle_count : List (String × Nat)
  counting_line_y : Option Int
deriving DecidableEq, Repr

/-- AdvancedVehicleDetector.update_tracking: starting from an empty
current_trackers, process each detection against the prior tracker map, then
install current_trackers as self.trackers.  Returns the new state and the
detections annotated with tracker ids. -/
def update_tracking (s : DetectorState) (dets : List Detection) :
    DetectorState × List (Detection × Nat) :=
  let ls := dets.foldl (trackStep s.trackers)
      ⟨[], s.next_tracker_id, s.tracker_history, []⟩
  ({ s with trackers := ls.current, next_tracker_id := ls.nextId,
            tracker_history := ls.hists }, ls.out)

/-- AdvancedVehicleDetector.set_counting_zone. -/
def set_counting_zone (s : DetectorState) (y : Int) : DetectorState :=
  { s with counting_line_y := some y }

/-- history[-2].y for a history of length at least two. -/
def prevY (h : List (Int × Int)) : Int :=
  (h.getD (h.length - 2) (0, 0)).2

/-- history[-1].y for a nonempty history. -/
def currY (h : List (Int × Int)) : Int :=
  (h.getD (h.length - 1) (0, 0)).2

/-- self.vehicle_count[k] on the defaultdict(int): 0 when absent. -/
def countLookup (cs : List (String × Nat)) (k : String) : Nat :=
  (assocLookup k cs).getD 0

/-- self.vehicle_count[k] += 1 on the defaultdict(int). -/
def countIncr (k : String) (cs : List (String × Nat)) :
    List (String × Nat) :=
  assocUpdate k (countLookup cs k + 1) cs

/-- The guard under which one detection increments a counter in
count_vehicles: a truthy tracker id that is a key of tracker_history, at
least two history points, and the downward-crossing test
prev_y < line_y <= curr_y. -/
def IncrCond (hists : List (Nat × List (Int × Int))) (ly : Int)
    (td : Detection × Nat) : Prop :=
  td.2 ≠ 0 ∧ (assocLookup td.2 hists).isSome ∧
    2 ≤ (historyOf hists td.2).length ∧
    prevY (historyOf hists td.2) < ly ∧ ly ≤ currY (historyOf hists td.2)

instance (hists : List (Nat × List (Int × Int))) (ly : Int)
    (td : Detection × Nat) : Decidable (IncrCond hists ly td) := by
  unfold IncrCond; infer_instance

/-- The body of the per-detection loop of count_vehicles. -/
def countStep (hists : List (Nat × List (Int × Int))) (ly : Int)
    (cs : List (String × Nat)) (td : Detection × Nat) :
    List (String × Nat) :=
  if IncrCond hists ly td then countIncr td.1.class_name cs else cs

/-- AdvancedVehicleDetector.count_vehicles: with no counting line it returns
the empty dict at once; otherwise it runs the crossing test for every tracked
detection, incrementing self.vehicle_count, and returns dict(vehicle_count).
The histories are only read, never written, during the call. -/
def count_vehicles (s : DetectorState) (tds : List (Detection × Nat)) :
    DetectorState × List (String × Nat) :=
  match s.counting_line_y with
  | none => (s, [])
  | some ly =>
      let cs := tds.foldl (countStep s.tracker_history ly) s.vehicle_count
      ({ s with vehicle_count := cs }, cs)

/-- AdvancedVehicleDetector.estimate_speed: None for an unknown id or a
history shorter than two; otherwise the Euclidean distance from the first to
the last history entry divided by len(history)/fps, guarded by
time_elapsed > 0. -/
noncomputable def estimate_speed (hists : List (Nat × List (Int × Int)))
    (tid : Nat) (fps : ℚ) : Option ℝ :=
  match assocLookup tid hists with
  | none => none
  | some history =>
      if history.length < 2 then none
      else
        let start_pos := history.headD (0, 0)
        let end_pos := history.getD (history.length - 1) (0, 0)
        let dist : ℝ := Real.sqrt ((sqDist end_pos start_pos : ℤ) : ℝ)
        let time_elapsed : ℚ := (history.length : ℚ) / fps
        if 0 < time_elapsed then some (dist / (time_elapsed : ℝ)) else none

/-- The geometric filter at the end of detect_lanes: keep a candidate Hough
segment iff abs (y2 - y1) < 50 (nearly horizontal). -/
def laneFilter (lines : List Segment) : List Segment :=
  lines.filter (fun l => decide (|l.y2 - l.y1| < 50))

/-- Repeated history appends, for reasoning about a single track id that is
updated over a sequence of frames. -/
def appendAll (h : List (Int × Int)) (cs : List (Int × Int)) :
    List (Int × Int) :=
  cs.foldl (fun acc c => histAppend c acc) h

section AssocLemmas

variable {κ α : Type} [DecidableEq κ]

lemma assocLookup_update_self (k : κ) (v : α) (l : List (κ × α)) :
    assocLookup k (assocUpdate k v l) = some v := by
  induction l with
  | nil => simp [assocUpdate, assocLookup]
  | cons p rest ih =>
      by_cases h : p.1 = k
      · simp [assocUpdate, assocLookup, h]
      · simp [assocUpdate, assocLookup, h, ih]

lemma assocLookup_update_ne (k k' : κ) (v : α) (l : List (κ × α))
    (h : k' ≠ k) : assocLookup k' (assocUpdate k v l) = assocLookup k' l := by
  induction l with
  | nil => simp [assocUpdate, assocLookup, Ne.symm h]
  | cons p rest ih =>
      by_cases hp : p.1 = k
      · subst hp
        simp [assocUpdate, assocLookup, Ne.symm h]
      · simp [assocUpdate, assocLookup, hp, ih]

lemma mem_keys_update (i k : κ) (v : α) (l : List (κ × α)) :
    i ∈ keys (assocUpdate k v l) ↔ i = k ∨ i ∈ keys l := by
  induction l with
  | nil => simp [assocUpdate, keys]
  | cons p rest ih =>
      by_cases hp : p.1 = k
      · subst hp
        simp [assocUpdate, keys]
      · simp [assocUpdate, keys, hp] at ih ⊢
        tauto

lemma assocLookup_mem (k : κ) (v : α) (l : List (κ × α))
    (h : assocLookup k l = some v) : (k, v) ∈ l := by
  induction l with
  | nil => simp [assocLookup] at h
  | cons p rest ih =>
      by_cases hp : p.1 = k
      · have h2 : p.2 = v := by simpa [assocLookup, hp] using h
        have hpkv : p = (k, v) := by
          cases p
          simp_all
        rw [← hpkv]
        exact List.mem_cons_self _ _
      · simp [assocLookup, hp] at h
        exact List.mem_cons_of_mem _ (ih h)

lemma mem_update (q : κ × α) (k : κ) (v : α) (l : List (κ × α))
    (h : q ∈ assocUpdate k v l) : q = (k, v) ∨ q ∈ l := by
  induction l with
  | nil => simpa [assocUpdate] using h
  | cons p rest ih =>
      by_cases hp : p.1 = k
      · simp [assocUpdate, hp] at h
        rcases h with h | h
        · exact Or.inl h
        · exact Or.inr (List.mem_cons_of_mem _ h)
      · simp [assocUpdate, hp] at h
        rcases h with h | h
        · exact Or.inr (by simp [h])
        · rcases ih h with h' | h'
          · exact Or.inl h'
          · exact Or.inr (List.mem_cons_of_mem _ h')

end AssocLemmas

/-- Once the matching loop holds a candidate below the gate, the fold returns
a candidate below the gate that is a genuine tracker entry or the original,
never increases the recorded distance, and is a lower bound on every distance
in the remaining list. -/
lemma foldl_matchStep_some_spec (center : Int × Int)
    (tks : List (Nat × (Int × Int))) :
    ∀ mid md, md < 10000 →
      ∃ r, tks.foldl (matchStep center) (some (mid, md)) = some r ∧
        r.2 < 10000 ∧ r.2 ≤ md ∧
        ((r.1 = mid ∧ r.2 = md) ∨ ∃ c, (r.1, c) ∈ tks ∧ sqDist center c = r.2) ∧
        (∀ p ∈ tks, r.2 ≤ sqDist center p.2) := by
  induction tks with
  | nil =>
      intro mid md hmd
      exact ⟨(mid, md), rfl, hmd, le_refl _, Or.inl ⟨rfl, rfl⟩, by simp⟩
  | cons p rest ih =>
      intro mid md hmd
      by_cases hlt : sqDist center p.2 < md
      · have hgate : sqDist center p.2 < 10000 := lt_trans hlt hmd
        have hstep : matchStep center (some (mid, md)) p
            = some (p.1, sqDist center p.2) := by
          simp [matchStep, hlt, hgate]
        obtain ⟨r, hr, hr1, hr2, hr3, hr4⟩ := ih p.1 (sqDist center p.2) hgate
        refine ⟨r, ?_, hr1, le_trans hr2 (le_of_lt hlt), ?_, ?_⟩
        · simpa [hstep] using hr
        · rcases hr3 with ⟨h1, h2⟩ | ⟨c, hc, hc2⟩
          · exact Or.inr ⟨p.2, by simp [h1], by rw [h2]⟩
          · exact Or.inr ⟨c, List.mem_cons_of_mem _ hc, hc2⟩
        · intro q hq
          rcases List.mem_cons.mp hq with h | h
          · rw [h]
            exact hr2
          · exact hr4 q h
      · have hstep : matchStep center (some (mid, md)) p = some (mid, md) := by
          simp [matchStep, hlt]
        obtain ⟨r, hr, hr1, hr2, hr3, hr4⟩ := ih mid md hmd
        refine ⟨r, by simpa [hstep] using hr, hr1, hr2, ?_, ?_⟩
        · rcases hr3 with h | ⟨c, hc, hc2⟩
          · exact Or.inl h
          · exact Or.inr ⟨c, List.mem_cons_of_mem _ hc, hc2⟩
        · intro q hq
          rcases List.mem_cons.mp hq with h | h
          · rw [h]
            exact le_trans hr2 (le_of_not_lt hlt)
          · exact hr4 q h

/-- Characterization of the whole matching loop starting from no candidate:
it fails exactly when every prior tracker is at or beyond the gate, and on
success it returns a tracker entry whose squared distance is minimal over the
whole prior map and below the gate. -/
lemma findMatch_spec (center : Int × Int)
    (tks : List (Nat × (Int × Int))) :
    (findMatch center tks = none → ∀ p ∈ tks, 10000 ≤ sqDist center p.2) ∧
    (∀ r, findMatch center tks = some r →
      (∃ c, (r.1, c) ∈ tks ∧ sqDist center c = r.2) ∧ r.2 < 10000 ∧
      ∀ p ∈ tks, r.2 ≤ sqDist center p.2) := by
  induction tks with
  | nil => simp [findMatch]
  | cons p rest ih =>
      by_cases hgate : sqDist center p.2 < 10000
      · have hstep : matchStep center none p = some (p.1, sqDist center p.2) := by
          simp [matchStep, hgate]
        have hfold : findMatch center (p :: rest)
            = rest.foldl (matchStep center) (some (p.1, sqDist center p.2)) := by
          simp [findMatch, hstep]
        obtain ⟨r, hr, hr1, hr2, hr3, hr4⟩ :=
          foldl_matchStep_some_spec center rest p.1 (sqDist center p.2) hgate
        constructor
        · intro hnone
          rw [hfold, hr] at hnone
          exact absurd hnone (by simp)
        · intro r' hr'
          rw [hfold, hr] at hr'
          obtain rfl : r = r' := by simpa using hr'
          refine ⟨?_, hr1, ?_⟩
          · rcases hr3 with ⟨h1, h2⟩ | ⟨c, hc, hc2⟩
            · exact ⟨p.2, by simp [h1], by rw [h2]⟩
            · exact ⟨c, List.mem_cons_of_mem _ hc, hc2⟩
          · intro q hq
            rcases List.mem_cons.mp hq with h | h
            · rw [h]; exact hr2
            · exact hr4 q h
      · have hstep : matchStep center none p = none := by
          simp [matchStep, hgate]
        have hfold : findMatch center (p :: rest) = findMatch center rest := by
          simp [findMatch, hstep]
        constructor
        · intro hnone q hq
          rcases List.mem_cons.mp hq with h | h
          · rw [h]; exact le_of_not_lt hgate
          · exact ih.1 (by rwa [hfold] at hnone) q h
        · intro r hr
          rw [hfold] at hr
          obtain ⟨⟨c, hc, hc2⟩, h2, h3⟩ := ih.2 r hr
          refine ⟨⟨c, List.mem_cons_of_mem _ hc, hc2⟩, h2, ?_⟩
          intro q hq
          rcases List.mem_cons.mp hq with h | h
          · rw [h]
            exact le_trans (le_of_lt h2) (le_of_not_lt hgate)
          · exact h3 q h

lemma countLookup_incr_self (k : String) (cs : List (String × Nat)) :
    countLookup (countIncr k cs) k = countLookup cs k + 1 := by
  simp [countLookup, countIncr, assocLookup_update_self]

lemma countLookup_incr_ne (k k' : String) (cs : List (String × Nat))
    (h : k' ≠ k) : countLookup (countIncr k cs) k' = countLookup cs k' := by
  simp [countLookup, countIncr, assocLookup_update_ne _ _ _ _ h]

/-- The counting fold adds, to each class counter, exactly the number of
processed detections that pass the crossing guard with that class. -/
lemma countFold_lookup (hists : List (Nat × List (Int × Int))) (ly : Int) :
    ∀ (tds : List (Detection × Nat)) (cs : List (String × Nat)) (c : String),
      countLookup (tds.foldl (countStep hists ly) cs) c
        = countLookup cs c +
            tds.countP (fun td =>
              decide (IncrCond hists ly td ∧ td.1.class_name = c)) := by
  intro tds
  induction tds with
  | nil => simp
  | cons td rest ih =>
      intro cs c
      rw [List.foldl_cons, ih, List.countP_cons]
      by_cases hI : IncrCond hists ly td
      · by_cases hc : td.1.class_name = c
        · subst hc
          simp only [countStep, if_pos hI, countLookup_incr_self]
          simp [hI]
          omega
        · simp only [countStep, if_pos hI]
          rw [countLookup_incr_ne _ _ _ (Ne.symm hc)]
          simp [hI, hc]
      · simp only [countStep, if_neg hI]
        simp [hI]

/-- A predicate preserved by every tracking step is preserved by the whole
per-frame fold. -/
lemma foldl_trackStep_preserve {P : LoopState → Prop}
    (trackers : List (Nat × (Int × Int)))
    (hstep : ∀ ls d, P ls → P (trackStep trackers ls d)) :
    ∀ (dets : List Detection) (ls : LoopState),
      P ls → P (dets.foldl (trackStep trackers) ls) := by
  intro dets
  induction dets with
  | nil => intro ls h; exact h
  | cons d rest ih =>
      intro ls h
      exact ih _ (hstep ls d h)

/-- One bounded append, written as a drop of the extended sequence. -/
lemma histAppend_eq_drop (c : Int × Int) (h : List (Int × Int))
    (hlen : h.length ≤ 30) :
    histAppend c h = (h ++ [c]).drop (h.length + 1 - 30) := by
  unfold histAppend
  by_cases hlt : h.length < 30
  · have h0 : h.length + 1 - 30 = 0 := by omega
    simp [hlt, h0]
  · have h30 : h.length = 30 := by omega
    have h1 : h.length + 1 - 30 = 1 := by omega
    simp only [hlt, if_false, h1]
    cases h with
    | nil => simp at h30
    | cons a t => simp

lemma histAppend_length (c : Int × Int) (h : List (Int × Int))
    (hlen : h.length ≤ 30) :
    (histAppend c h).length = min (h.length + 1) 30 := by
  unfold histAppend
  by_cases hlt : h.length < 30
  · simp [hlt]
    omega
  · have h30 : h.length = 30 := by omega
    simp [hlt, List.length_tail, h30]

lemma histAppend_le (c : Int × Int) (h : List (Int × Int))
    (hlen : h.length ≤ 30) : (histAppend c h).length ≤ 30 := by
  rw [histAppend_length c h hlen]
  omega

/-- The sliding window: appending any sequence of centroids to a bounded
history leaves exactly the last 30 entries of the concatenation. -/
lemma appendAll_eq_drop :
    ∀ (cs : List (Int × Int)) (h : List (Int × Int)), h.length ≤ 30 →
      appendAll h cs = (h ++ cs).drop ((h ++ cs).length - 30) := by
  intro cs
  induction cs with
  | nil =>
      intro h hh
      have h0 : h.length - 30 = 0 := by omega
      simp [appendAll, h0]
  | cons c rest ih =>
      intro h hh
      have hstep : appendAll h (c :: rest) = appendAll (histAppend c h) rest := by
        simp [appendAll]
      rw [hstep, ih _ (histAppend_le c h hh), histAppend_eq_drop c h hh]
      have hk : h.length + 1 - 30 ≤ (h ++ [c]).length := by
        simp
        omega
      rw [← List.drop_append_of_le_length hk, List.drop_drop,
        ← List.append_cons]
      congr 1
      simp [List.length_drop]
      omega

/-- Claim C1: with a counting line configured, a tracked detection whose id
is a key of the history store increments the counter of its own class by
exactly 1 and leaves every other class unchanged iff the last two history
y-values satisfy prev_y < line_y <= curr_y; when that fails, or the history
has fewer than two points, no counter changes. -/
theorem count_vehicles_cross_iff (s : DetectorState) (td : Detection × Nat)
    (ly : Int) (hline : s.counting_line_y = some ly) (hid : td.2 ≠ 0)
    (hmem : (assocLookup td.2 s.tracker_history).isSome) :
    ((2 ≤ (historyOf s.tracker_history td.2).length ∧
        prevY (historyOf s.tracker_history td.2) < ly ∧
        ly ≤ currY (historyOf s.tracker_history td.2)) →
      (count_vehicles s [td]).1.vehicle_count
          = countIncr td.1.class_name s.vehicle_count ∧
      countLookup (count_vehicles s [td]).1.vehicle_count td.1.class_name
          = countLookup s.vehicle_count td.1.class_name + 1 ∧
      ∀ c, c ≠ td.1.class_name →
        countLookup (count_vehicles s [td]).1.vehicle_count c
          = countLookup s.vehicle_count c) ∧
    (¬(2 ≤ (historyOf s.tracker_history td.2).length ∧
        prevY (historyOf s.tracker_history td.2) < ly ∧
        ly ≤ currY (historyOf s.tracker_history td.2)) →
      (count_vehicles s [td]).1.vehicle_count = s.vehicle_count) := by
  have hcv : (count_vehicles s [td]).1.vehicle_count
      = countStep s.tracker_history ly s.vehicle_count td := by
    simp [count_vehicles, hline]
  constructor
  · intro hcross
    have hI : IncrCond s.tracker_history ly td :=
      ⟨hid, hmem, hcross.1, hcross.2.1, hcross.2.2⟩
    rw [hcv]
    simp only [countStep, if_pos hI]
    exact ⟨by trivial, countLookup_incr_self _ _,
      fun c hc => countLookup_incr_ne _ _ _ hc⟩
  · intro hncross
    have hI : ¬ IncrCond s.tracker_history ly td := by
      rintro ⟨-, -, h1, h2, h3⟩
      exact hncross ⟨h1, h2, h3⟩
    rw [hcv]
    simp only [countStep, if_neg hI]

/-- Witness for C1 on the spec's end-to-end numbers: a track with history
[(100, 55), (100, 95)] and line y = 90 books exactly one car. -/
theorem count_vehicles_cross_iff_witness :
    (count_vehicles
        ⟨[(1, (100, 95))], 2, [(1, [(100, 55), (100, 95)])], [], some 90⟩
        [(⟨(100, 95), "car"⟩, 1)]).1.vehicle_count = countIncr "car" [] :=
  ((count_vehicles_cross_iff
      ⟨[(1, (100, 95))], 2, [(1, [(100, 55), (100, 95)])], [], some 90⟩
      (⟨(100, 95), "car"⟩, 1) 90 rfl (by decide) (by decide)).1
    (by decide)).1

/-- Claim C6: estimate_speed is None exactly for a history shorter than two
points (unknown ids included); otherwise it returns the first-to-last
Euclidean displacement divided by len(history)/fps, and on history
[(0,0), (30,40)] at fps = 30 it returns 750. -/
theorem estimate_speed_spec (hists : List (Nat × List (Int × Int)))
    (tid : Nat) (fps : ℚ) (hfps : 0 < fps) :
    (estimate_speed hists tid fps = none ↔
      (historyOf hists tid).length < 2) ∧
    (∀ h, assocLookup tid hists = some h → 2 ≤ h.length →
      estimate_speed hists tid fps
        = some (Real.sqrt
              ((sqDist (h.getD (h.length - 1) (0, 0)) (h.headD (0, 0)) : ℤ) : ℝ)
            / (((h.length : ℚ) / fps : ℚ) : ℝ))) ∧
    estimate_speed [(1, [(0, 0), (30, 40)])] 1 30 = some 750 := by
  refine ⟨?_, ?_, ?_⟩
  · unfold estimate_speed
    cases hlk : assocLookup tid hists with
    | none => simp [historyOf, hlk]
    | some h =>
        simp only [historyOf, hlk, Option.getD_some]
        by_cases hlen : h.length < 2
        · simp [hlen]
        · have hpos : 0 < (h.length : ℚ) / fps := by
            apply div_pos _ hfps
            have h0 : 0 < h.length := by omega
            exact_mod_cast h0
          simp [hlen, hpos]
  · intro h hlk hlen
    unfold estimate_speed
    rw [hlk]
    have hnlt : ¬ h.length < 2 := by omega
    have hpos : 0 < (h.length : ℚ) / fps := by
      apply div_pos _ hfps
      have h0 : 0 < h.length := by omega
      exact_mod_cast h0
    simp [hnlt, hpos]
  · have e1 : assocLookup 1 [(1, ([(0, 0), (30, 40)] : List (Int × Int)))]
        = some [(0, 0), (30, 40)] := rfl
    unfold estimate_speed
    rw [e1]
    norm_num [sqDist]
    rw [show (2500 : ℝ) = 50 ^ 2 by norm_num]
    rw [Real.sqrt_sq (by norm_num : (0 : ℝ) ≤ 50)]
    norm_num

/-- Witness for C6: the concrete 750 units/s evaluation. -/
theorem estimate_speed_spec_witness :
    estimate_speed [(1, [(0, 0), (30, 40)])] 1 30 = some 750 :=
  (estimate_speed_spec [(1, [(0, 0), (30, 40)])] 1 30 (by norm_num)).2.2

/-- Claim C7: when no counting line is configured, count_vehicles returns
the empty table and leaves the whole detector state, counters included,
untouched. -/
theorem count_vehicles_no_line (s : DetectorState)
    (tds : List (Detection × Nat)) (h : s.counting_line_y = none) :
    count_vehicles s tds = (s, []) := by
  simp [count_vehicles, h]

/-- Witness for C7 at a state with a nonempty count table. -/
theorem count_vehicles_no_line_witness :
    count_vehicles ⟨[], 1, [], [("car", 2)], none⟩ [(⟨(0, 0), "car"⟩, 1)]
      = (⟨[], 1, [], [("car", 2)], none⟩, []) :=
  count_vehicles_no_line _ _ rfl

/-- Claim C9: the detect_lanes output keeps a candidate segment iff its
endpoints differ by less than 50 in y, so every returned segment is nearly
horizontal; a perfectly vertical candidate of at least the Hough minimum
segment length (100, hence y-extent at least 100) is never returned. -/
theorem lane_filter_near_horizontal (lines : List Segment) (seg : Segment) :
    (seg ∈ laneFilter lines ↔ seg ∈ lines ∧ |seg.y2 - seg.y1| < 50) ∧
    (seg.x1 = seg.x2 → 100 ≤ |seg.y2 - seg.y1| → seg ∉ laneFilter lines) := by
  have hiff : seg ∈ laneFilter lines ↔ seg ∈ lines ∧ |seg.y2 - seg.y1| < 50 := by
    simp [laneFilter, List.mem_filter]
  refine ⟨hiff, ?_⟩
  intro _ h100 hmem
  have h50 : |seg.y2 - seg.y1| < 50 := (hiff.mp hmem).2
  omega

/-- Witness for C9: a vertical 120-pixel candidate is rejected. -/
theorem lane_filter_near_horizontal_witness :
    (⟨5, 0, 5, 120⟩ : Segment) ∉ laneFilter [⟨5, 0, 5, 120⟩] :=
  (lane_filter_near_horizontal [⟨5, 0, 5, 120⟩] ⟨5, 0, 5, 120⟩).2 rfl
    (by decide)

/-- Claim C10 (amended): count_vehicles never touches the tracker map, the
history store, the id counter or the counting line; with a line configured
the returned table is the post-call count table, while with no line it
returns the empty table (not a snapshot) and the counters are unchanged. -/
theorem count_vehicles_state_effect (s : DetectorState)
    (tds : List (Detection × Nat)) :
    (count_vehicles s tds).1.trackers = s.trackers ∧
    (count_vehicles s tds).1.tracker_history = s.tracker_history ∧
    (count_vehicles s tds).1.next_tracker_id = s.next_tracker_id ∧
    (count_vehicles s tds).1.counting_line_y = s.counting_line_y ∧
    (∀ ly, s.counting_line_y = some ly →
      (count_vehicles s tds).2 = (count_vehicles s tds).1.vehicle_count) ∧
    (s.counting_line_y = none →
      (count_vehicles s tds).2 = [] ∧
      (count_vehicles s tds).1.vehicle_count = s.vehicle_count) := by
  cases hline : s.counting_line_y <;> simp [count_vehicles, hline]

/-- Witness for C10: the returned table is the stored table when a line is
set. -/
theorem count_vehicles_state_effect_witness :
    (count_vehicles ⟨[(1, (0, 0))], 2, [], [("car", 1)], some 5⟩ []).2
      = (count_vehicles ⟨[(1, (0, 0))], 2, [], [("car", 1)], some 5⟩
          []).1.vehicle_count :=
  (count_vehicles_state_effect _ _).2.2.2.2.1 5 rfl

/-- Counterexample to C10 as stated: with no counting line and a nonempty
count table, the call returns the empty dict, which is not a snapshot of the
(unchanged, nonempty) count table. -/
theorem count_vehicles_snapshot_cex :
    (count_vehicles ⟨[], 1, [], [("car", 1)], none⟩ []).2
      ≠ (count_vehicles ⟨[], 1, [], [("car", 1)], none⟩ []).1.vehicle_count := by
  decide

/-- Claim C2: a detection is matched to a prior track of minimal (squared)
distance exactly when some prior track is strictly within the gate
(distance < 100, i.e. squared distance < 10000); otherwise it receives the
fresh id next_tracker_id, never used by any prior track or history entry,
and the counter strictly increases. -/
theorem trackStep_assignment (trackers : List (Nat × (Int × Int)))
    (ls : LoopState) (d : Detection)
    (hfresh : ∀ i, i ∈ keys trackers ∨ i ∈ keys ls.hists → i < ls.nextId) :
    (∀ m, findMatch d.center trackers = some m →
      (∃ c, (m.1, c) ∈ trackers ∧ sqDist d.center c = m.2) ∧ m.2 < 10000 ∧
      (∀ p ∈ trackers, m.2 ≤ sqDist d.center p.2) ∧
      (trackStep trackers ls d).out = ls.out ++ [(d, m.1)] ∧
      (trackStep trackers ls d).nextId = ls.nextId) ∧
    (findMatch d.center trackers = none →
      (∀ p ∈ trackers, 10000 ≤ sqDist d.center p.2) ∧
      (trackStep trackers ls d).out = ls.out ++ [(d, ls.nextId)] ∧
      ls.nextId ∉ keys trackers ∧ ls.nextId ∉ keys ls.hists ∧
      (trackStep trackers ls d).nextId = ls.nextId + 1) ∧
    (findMatch d.center trackers = none ↔
      ∀ p ∈ trackers, 10000 ≤ sqDist d.center p.2) ∧
    (∀ (s : DetectorState) (dets : List Detection),
      update_tracking s dets
        = ({ s with
              trackers := (dets.foldl (trackStep s.trackers)
                ⟨[], s.next_tracker_id, s.tracker_history, []⟩).current,
              next_tracker_id := (dets.foldl (trackStep s.trackers)
                ⟨[], s.next_tracker_id, s.tracker_history, []⟩).nextId,
              tracker_history := (dets.foldl (trackStep s.trackers)
                ⟨[], s.next_tracker_id, s.tracker_history, []⟩).hists },
           (dets.foldl (trackStep s.trackers)
             ⟨[], s.next_tracker_id, s.tracker_history, []⟩).out)) := by
  refine ⟨?_, ?_, ⟨?_, ?_⟩, fun s dets => rfl⟩
  · intro m hm
    obtain ⟨h1, h2, h3⟩ := (findMatch_spec d.center trackers).2 m hm
    exact ⟨h1, h2, h3, by simp [trackStep, hm], by simp [trackStep, hm]⟩
  · intro hnone
    refine ⟨(findMatch_spec d.center trackers).1 hnone,
      by simp [trackStep, hnone], ?_, ?_, by simp [trackStep, hnone]⟩
    · intro hmem
      exact lt_irrefl _ (hfresh _ (Or.inl hmem))
    · intro hmem
      exact lt_irrefl _ (hfresh _ (Or.inr hmem))
  · intro hnone
    exact (findMatch_spec d.center trackers).1 hnone
  · intro hall
    cases hm : findMatch d.center trackers with
    | none => rfl
    | some m =>
        obtain ⟨⟨c, hc, hcd⟩, h2, -⟩ := (findMatch_spec d.center trackers).2 m hm
        have := hall (m.1, c) hc
        rw [hcd] at this
        omega

/-- Witness for C2: a detection 500 pixels from the only prior track gets
the fresh id 2 and bumps the counter to 3. -/
theorem trackStep_assignment_witness :
    (trackStep [(1, (0, 0))] ⟨[], 2, [(1, [(0, 0)])], []⟩
        ⟨(500, 0), "car"⟩).out = [(⟨(500, 0), "car"⟩, 2)] ∧
    (trackStep [(1, (0, 0))] ⟨[], 2, [(1, [(0, 0)])], []⟩
        ⟨(500, 0), "car"⟩).nextId = 3 := by
  have h := (trackStep_assignment [(1, (0, 0))] ⟨[], 2, [(1, [(0, 0)])], []⟩
      ⟨(500, 0), "car"⟩ (by
        intro i hi
        have h1 : i = 1 := by rcases hi with h | h <;> simpa [keys] using h
        subst h1
        decide)).2.1 (by decide)
  exact ⟨h.2.1, h.2.2.2.2⟩

/-- Each history entry written by one tracking step stays within the 30-entry
bound. -/
lemma histUpdate_bound (i : Nat) (c : Int × Int)
    (hists : List (Nat × List (Int × Int)))
    (hb : ∀ p ∈ hists, p.2.length ≤ 30) :
    ∀ p ∈ histUpdate i c hists, p.2.length ≤ 30 := by
  intro p hp
  rcases mem_update p i _ hists hp with h | h
  · have hlen : (historyOf hists i).length ≤ 30 := by
      unfold historyOf
      cases hlk : assocLookup i hists with
      | none => simp
      | some h0 =>
          simpa using hb (i, h0) (assocLookup_mem _ _ _ hlk)
    rw [h]
    exact histAppend_le c _ hlen
  · exact hb p h

/-- Claim C4: update_tracking keeps every stored history within 30 entries,
and a sequence of appends to one track id retains exactly the most recent 30
centroids (the suffix of the full append sequence), so after 30 + k appends
the length stays pinned at 30 with the oldest entries evicted first. -/
theorem tracker_history_window (s : DetectorState) (dets : List Detection)
    (hbound : ∀ p ∈ s.tracker_history, p.2.length ≤ 30) :
    (∀ p ∈ (update_tracking s dets).1.tracker_history, p.2.length ≤ 30) ∧
    (∀ cs : List (Int × Int), appendAll [] cs = cs.drop (cs.length - 30)) ∧
    (∀ cs : List (Int × Int), 30 ≤ cs.length →
      (appendAll [] cs).length = 30) := by
  have hdrop : ∀ cs : List (Int × Int),
      appendAll [] cs = cs.drop (cs.length - 30) := by
    intro cs
    simpa using appendAll_eq_drop cs [] (by simp)
  refine ⟨?_, hdrop, ?_⟩
  · have key := foldl_trackStep_preserve
      (P := fun ls => ∀ p ∈ ls.hists, p.2.length ≤ 30) s.trackers
      (fun ls d hP => by
        cases heq : findMatch d.center s.trackers with
        | some m =>
            simp only [trackStep, heq]
            exact histUpdate_bound m.1 d.center ls.hists hP
        | none =>
            simp only [trackStep, heq]
            exact histUpdate_bound ls.nextId d.center ls.hists hP)
      dets ⟨[], s.next_tracker_id, s.tracker_history, []⟩ hbound
    exact key
  · intro cs hcs
    rw [hdrop cs, List.length_drop]
    omega

/-- Witness for C4: from a state holding a full 30-entry history, one more
frame keeps every history at 30 or fewer entries, and 31 appends retain
exactly 30 entries. -/
theorem tracker_history_window_witness :
    (∀ p ∈ (update_tracking
        ⟨[(1, (0, 0))], 2, [(1, List.replicate 30 ((0, 0) : Int × Int))],
          [], none⟩ [⟨(0, 1), "car"⟩]).1.tracker_history,
      p.2.length ≤ 30) ∧
    (appendAll [] (List.replicate 31 ((0, 0) : Int × Int))).length = 30 := by
  have h := tracker_history_window
    ⟨[(1, (0, 0))], 2, [(1, List.replicate 30 ((0, 0) : Int × Int))], [], none⟩
    [⟨(0, 1), "car"⟩] (by decide)
  exact ⟨h.1, h.2.2 _ (by simp)⟩

/-- One tracking step preserves the live-set / history bookkeeping: the keys
of current_trackers are exactly the ids handed out so far, and the history of
any id never handed out is untouched. -/
lemma liveSet_aux (s0hists : List (Nat × List (Int × Int))) (ls : LoopState)
    (d : Detection) (tid : Nat)
    (hP1 : ∀ i, i ∈ keys ls.current ↔ ∃ td ∈ ls.out, td.2 = i)
    (hP2 : ∀ i, (∀ td ∈ ls.out, td.2 ≠ i) →
      assocLookup i ls.hists = assocLookup i s0hists) :
    (∀ i, i ∈ keys (assocUpdate tid d.center ls.current) ↔
      ∃ td ∈ ls.out ++ [(d, tid)], td.2 = i) ∧
    (∀ i, (∀ td ∈ ls.out ++ [(d, tid)], td.2 ≠ i) →
      assocLookup i (histUpdate tid d.center ls.hists)
        = assocLookup i s0hists) := by
  constructor
  · intro i
    rw [mem_keys_update, hP1 i]
    simp only [List.mem_append, List.mem_singleton]
    constructor
    · rintro (h | ⟨td, htd, h⟩)
      · exact ⟨(d, tid), Or.inr rfl, h.symm⟩
      · exact ⟨td, Or.inl htd, h⟩
    · rintro ⟨td, htd | htd, h⟩
      · exact Or.inr ⟨td, htd, h⟩
      · left
        rw [htd] at h
        exact h.symm
  · intro i hi
    have hne : i ≠ tid := by
      intro hi2
      exact hi (d, tid) (List.mem_append.mpr (Or.inr (List.mem_singleton.mpr rfl)))
        (by rw [hi2])
    unfold histUpdate
    rw [assocLookup_update_ne _ _ _ _ hne]
    exact hP2 i (fun td htd => hi td (List.mem_append.mpr (Or.inl htd)))

/-- Claim C5: after update_tracking, the live tracker map holds exactly the
ids assigned in that call, and the history entry of any id not assigned in
the call, dropped prior tracks included, is left word-for-word unchanged. -/
theorem update_tracking_live_set (s : DetectorState) (dets : List Detection) :
    (∀ i, i ∈ keys (update_tracking s dets).1.trackers ↔
      ∃ td ∈ (update_tracking s dets).2, td.2 = i) ∧
    (∀ i, (∀ td ∈ (update_tracking s dets).2, td.2 ≠ i) →
      assocLookup i (update_tracking s dets).1.tracker_history
        = assocLookup i s.tracker_history) := by
  have key := foldl_trackStep_preserve
    (P := fun ls =>
      (∀ i, i ∈ keys ls.current ↔ ∃ td ∈ ls.out, td.2 = i) ∧
      (∀ i, (∀ td ∈ ls.out, td.2 ≠ i) →
        assocLookup i ls.hists = assocLookup i s.tracker_history))
    s.trackers
    (fun ls d hP => by
      cases heq : findMatch d.center s.trackers with
      | some m =>
          simp only [trackStep, heq]
          exact liveSet_aux s.tracker_history ls d m.1 hP.1 hP.2
      | none =>
          simp only [trackStep, heq]
          exact liveSet_aux s.tracker_history ls d ls.nextId hP.1 hP.2)
    dets ⟨[], s.next_tracker_id, s.tracker_history, []⟩
    (by constructor <;> simp [keys])
  exact key

/-- Witness for C5: after a frame whose only detection starts track 1, the
live set is exactly the assigned id and an unassigned id keeps its history. -/
theorem update_tracking_live_set_witness :
    (1 ∈ keys (update_tracking ⟨[], 1, [(7, [(3, 3)])], [], none⟩
        [⟨(0, 0), "car"⟩]).1.trackers ↔
      ∃ td ∈ (update_tracking ⟨[], 1, [(7, [(3, 3)])], [], none⟩
        [⟨(0, 0), "car"⟩]).2, td.2 = 1) ∧
    assocLookup 7 (update_tracking ⟨[], 1, [(7, [(3, 3)])], [], none⟩
        [⟨(0, 0), "car"⟩]).1.tracker_history
      = assocLookup 7 [(7, [(3, 3)])] := by
  have h := update_tracking_live_set ⟨[], 1, [(7, [(3, 3)])], [], none⟩
    [⟨(0, 0), "car"⟩]
  exact ⟨h.1 1, h.2 7 (by decide)⟩

/-- Claim C3 (amended): within one count_vehicles call each class counter
grows by exactly the number of processed detections of that class passing the
crossing guard; the increments attributable to a track id are bounded by the
number of detections assigned that id, so a track assigned at most one
detection in the frame causes at most one increment, while a track assigned
several detections can cause one increment each. -/
theorem count_increment_per_assigned (s : DetectorState)
    (tds : List (Detection × Nat)) (ly : Int) (c : String) (T : Nat)
    (hline : s.counting_line_y = some ly) :
    countLookup (count_vehicles s tds).1.vehicle_count c
      = countLookup s.vehicle_count c +
        tds.countP (fun td =>
          decide (IncrCond s.tracker_history ly td ∧ td.1.class_name = c)) ∧
    tds.countP (fun td =>
        decide (IncrCond s.tracker_history ly td ∧ td.2 = T))
      ≤ tds.countP (fun td => decide (td.2 = T)) ∧
    (tds.countP (fun td => decide (td.2 = T)) ≤ 1 →
      tds.countP (fun td =>
        decide (IncrCond s.tracker_history ly td ∧ td.2 = T)) ≤ 1) := by
  have hmono : tds.countP (fun td =>
      decide (IncrCond s.tracker_history ly td ∧ td.2 = T))
      ≤ tds.countP (fun td => decide (td.2 = T)) := by
    apply List.countP_mono_left
    intro td htd h
    simp only [decide_eq_true_eq] at h ⊢
    exact h.2
  refine ⟨?_, hmono, fun hone => le_trans hmono hone⟩
  have hcv : (count_vehicles s tds).1.vehicle_count
      = tds.foldl (countStep s.tracker_history ly) s.vehicle_count := by
    simp [count_vehicles, hline]
  rw [hcv, countFold_lookup]

/-- Witness for C3's amended statement on a singleton frame. -/
theorem count_increment_per_assigned_witness :
    countLookup (count_vehicles
        ⟨[(1, (0, 10))], 2, [(1, [(0, 2), (0, 10)])], [], some 5⟩
        [(⟨(0, 10), "car"⟩, 1)]).1.vehicle_count "car"
      = countLookup [] "car" +
        List.countP (fun td =>
          decide (IncrCond [(1, [(0, 2), (0, 10)])] 5 td ∧
            td.1.class_name = "car")) [(⟨(0, 10), "car"⟩, 1)] :=
  (count_increment_per_assigned
    ⟨[(1, (0, 10))], 2, [(1, [(0, 2), (0, 10)])], [], some 5⟩
    [(⟨(0, 10), "car"⟩, 1)] 5 "car" 1 rfl).1

/-- The state before the double-counting frame: one live track at (0, 0)
with a one-point history, counting line at y = 5. -/
def dblState : DetectorState :=
  ⟨[(1, (0, 0))], 2, [(1, [(0, 0)])], [], some 5⟩

/-- Two same-frame detections that both fall within the gate of track 1. -/
def dblDets : List Detection := [⟨(0, 2), "car"⟩, ⟨(0, 10), "car"⟩]

/-- Counterexample to C3 as stated: in a single frame both detections are
matched to the one live track (id 1), and the subsequent count_vehicles call
increments the car counter twice — two increments for one (track, frame)
pair. -/
theorem same_frame_double_count_cex :
    keys (update_tracking dblState dblDets).1.trackers = [1] ∧
    List.map Prod.snd (update_tracking dblState dblDets).2 = [1, 1] ∧
    countLookup (count_vehicles (update_tracking dblState dblDets).1
        (update_tracking dblState dblDets).2).1.vehicle_count "car" = 2 := by
  refine ⟨by decide, by decide, by decide⟩

/-- Every detection matched inside the gate reuses an existing id, so a fold
over detections that all match leaves the id counter alone and hands out only
prior live ids. -/
lemma trackLoop_all_matched (trackers : List (Nat × (Int × Int))) :
    ∀ (dets : List Detection) (ls : LoopState),
      (∀ d ∈ dets, findMatch d.center trackers ≠ none) →
      ((dets.foldl (trackStep trackers) ls).nextId = ls.nextId ∧
        ∀ td ∈ (dets.foldl (trackStep trackers) ls).out,
          td ∈ ls.out ∨ td.2 ∈ keys trackers) := by
  intro dets
  induction dets with
  | nil => exact fun ls _ => ⟨rfl, fun td h => Or.inl h⟩
  | cons d rest ih =>
      intro ls hall
      have hd := hall d (List.mem_cons_self _ _)
      cases heq : findMatch d.center trackers with
      | none => exact absurd heq hd
      | some m =>
          obtain ⟨⟨c, hc, -⟩, -, -⟩ := (findMatch_spec d.center trackers).2 m heq
          have hkey : m.1 ∈ keys trackers := List.mem_map.mpr ⟨(m.1, c), hc, rfl⟩
          have hstep : trackStep trackers ls d
              = ⟨assocUpdate m.1 d.center ls.current, ls.nextId,
                 histUpdate m.1 d.center ls.hists, ls.out ++ [(d, m.1)]⟩ := by
            simp [trackStep, heq]
          have hrest := ih (trackStep trackers ls d)
            (fun d' hd' => hall d' (List.mem_cons_of_mem _ hd'))
          rw [List.foldl_cons]
          constructor
          · rw [hrest.1, hstep]
          · intro td htd
            rcases hrest.2 td htd with h | h
            · rw [hstep] at h
              rcases List.mem_append.mp h with h | h
              · exact Or.inl h
              · right
                rw [List.mem_singleton.mp h]
                exact hkey
            · exact Or.inr h

/-- Claim C8 (amended): replaying the same detection list creates no new
track ids and leaves the id counter unchanged, provided every detection's
centroid is within the 100-unit gate of the live set left by the first call
(which is automatic when no two detections of the frame were matched to the
same track, each centroid then being its own track's stored centroid, but can
fail after a same-frame collision overwrites the live centroid). -/
theorem replay_within_gate_no_new_ids (s : DetectorState)
    (dets : List Detection)
    (hgate : ∀ d ∈ dets, ∃ p ∈ (update_tracking s dets).1.trackers,
      sqDist d.center p.2 < 10000) :
    (update_tracking (update_tracking s dets).1 dets).1.next_tracker_id
        = (update_tracking s dets).1.next_tracker_id ∧
    ∀ td ∈ (update_tracking (update_tracking s dets).1 dets).2,
      td.2 ∈ keys (update_tracking s dets).1.trackers := by
  have hmatch : ∀ d ∈ dets,
      findMatch d.center (update_tracking s dets).1.trackers ≠ none := by
    intro d hd hnone
    obtain ⟨p, hp, hplt⟩ := hgate d hd
    exact absurd hplt (not_lt.mpr
      ((findMatch_spec d.center (update_tracking s dets).1.trackers).1 hnone p hp))
  have key := trackLoop_all_matched (update_tracking s dets).1.trackers dets
    ⟨[], (update_tracking s dets).1.next_tracker_id,
      (update_tracking s dets).1.tracker_history, []⟩ hmatch
  refine ⟨key.1, ?_⟩
  intro td htd
  rcases key.2 td htd with h | h
  · simp at h
  · exact h

/-- Witness for C8's amended statement: one detection, one fresh track, then
an identical replay reuses id 1 and keeps the counter at 2. -/
theorem replay_within_gate_witness :
    (update_tracking
        (update_tracking ⟨[], 1, [], [], none⟩ [⟨(5, 5), "car"⟩]).1
        [⟨(5, 5), "car"⟩]).1.next_tracker_id
      = (update_tracking ⟨[], 1, [], [], none⟩
          [⟨(5, 5), "car"⟩]).1.next_tracker_id :=
  (replay_within_gate_no_new_ids ⟨[], 1, [], [], none⟩ [⟨(5, 5), "car"⟩]
    (by decide)).1

/-- The state before the replay counterexample: one live track at (0, 0). -/
def replayState : DetectorState :=
  ⟨[(1, (0, 0))], 2, [(1, [(0, 0)])], [], none⟩

/-- Two detections each within the gate of track 1 but 180 apart from each
other, so the second overwrites the live centroid the first matched. -/
def replayDets : List Detection := [⟨(0, -90), "car"⟩, ⟨(0, 90), "car"⟩]

/-- Counterexample to C8 as stated: after the first call both detections were
matched (the id counter stayed at 2), yet replaying the identical list makes
the first detection, now 180 pixels from the overwritten live centroid of its
own track, spawn the brand-new id 2 and bump the counter to 3. -/
theorem replay_new_id_cex :
    (update_tracking replayState replayDets).1.next_tracker_id = 2 ∧
    (update_tracking (update_tracking replayState replayDets).1
        replayDets).1.next_tracker_id = 3 ∧
    List.map Prod.snd (update_tracking
        (update_tracking replayState replayDets).1 replayDets).2 = [2, 1] := by
  refine ⟨by decide, by decide, by decide⟩

end AdvDet
